import Mathlib

/-!
# Verification of the pi_atecc protocol engine

A shallow embedding, in Lean 4, of the pure computational content of
`src/pi_atecc.c`: the CRC-16 checksum engine, the command framer, the
response reader, the SHA streaming phase sequence, the random range
mapper, the lock-status decoder, the transient-transport-error policy
and the serial-number read.  Machine integers are modelled as `Nat`
with explicit reductions modulo `2^w` where the C code relies on
fixed-width wraparound; byte buffers are `List Nat`; a nullable C
pointer is an `Option`.
-/

set_option maxRecDepth 4000

namespace PiAtecc

/-! ## Checksum engine (`calc_crc16_ccitt`, `validate_crc`) -/

/-- One bit of the CRC loop body: `data_bit` is the current input bit,
the register is shifted left (as a `uint16_t`, i.e. modulo `2^16`) and
the polynomial `0x8005` is XORed in exactly when the input bit and the
register's former top bit disagree. -/
def crcStepBit (r : Nat) (b : Bool) : Nat :=
  if b ≠ r.testBit 15 then ((2 * r) % 65536) ^^^ 0x8005 else (2 * r) % 65536

/-- One byte of the CRC loop: the inner `for (shift_register = 0x01; ...)`
loop visits the 8 bits of the byte least-significant first. -/
def crcStepByte (r : Nat) (byte : Nat) : Nat :=
  (List.range 8).foldl (fun acc i => crcStepBit acc (byte.testBit i)) r

/-- The final 16-bit CRC register for a byte sequence, initialised to 0
(`calc_crc16_ccitt`'s `crc_register` after the outer loop). -/
def crcRegister (data : List Nat) : Nat :=
  data.foldl crcStepByte 0

/-- `calc_crc16_ccitt`: the register encoded little-endian, i.e. the two
bytes `crc_le[0] = crc_register & 0xFF` and `crc_le[1] = crc_register >> 8`. -/
def calc_crc16_ccitt (data : List Nat) : List Nat :=
  [crcRegister data % 256, (crcRegister data >>> 8) % 256]

/-- `validate_crc`: recompute the CRC over all but the last two of the
`length` bytes and compare with the trailing two bytes.  Fewer than 3
bytes fail outright. -/
def validate_crc (response : List Nat) (length : Nat) : Bool :=
  if length < 3 then false
  else
    let computed := calc_crc16_ccitt (response.take (length - 2))
    computed.getD 0 0 == response.getD (length - 2) 0 &&
      computed.getD 1 0 == response.getD (length - 1) 0

/-- C1: the checksum engine is the fixed bit-serial CRC with register
initialised to 0, polynomial `0x8005`, bits consumed LSB-first, the
polynomial XORed in exactly on disagreement of input bit and top bit,
and a little-endian 2-byte encoding; the empty input yields `0x0000`
and the lock-status request body `07 00 00 00 00` yields the trailer
`03 AD`. -/
theorem crc_engine_vectors :
    (∀ data : List Nat,
      calc_crc16_ccitt data =
        [crcRegister data % 256, (crcRegister data / 256) % 256]) ∧
    calc_crc16_ccitt [] = [0x00, 0x00] ∧
    calc_crc16_ccitt [0x07, 0x00, 0x00, 0x00, 0x00] = [0x03, 0xAD] := by
  refine ⟨fun data => ?_, by decide, by decide⟩
  simp [calc_crc16_ccitt, Nat.shiftRight_eq_div_pow]

/-! ## CRC algebra: the bit-serial update is GF(2)-linear -/

theorem xor_left_comm (a b c : Nat) : a ^^^ (b ^^^ c) = b ^^^ (a ^^^ c) := by
  rw [← Nat.xor_assoc, Nat.xor_comm a b, Nat.xor_assoc]

theorem testBit_two_mul (x i : Nat) :
    (2 * x).testBit i = (decide (1 ≤ i) && x.testBit (i - 1)) := by
  have h : 2 * x = x <<< 1 := by rw [Nat.shiftLeft_eq]; ring
  rw [h, Nat.testBit_shiftLeft]

theorem two_mul_mod_pow_xor (r s w : Nat) :
    (2 * (r ^^^ s)) % 2 ^ w = ((2 * r) % 2 ^ w) ^^^ ((2 * s) % 2 ^ w) := by
  apply Nat.eq_of_testBit_eq
  intro i
  simp only [Nat.testBit_mod_two_pow, Nat.testBit_xor, testBit_two_mul]
  by_cases h1 : i < w <;> by_cases h2 : 1 ≤ i <;> simp [h1, h2]

theorem two_mul_mod_xor (r s : Nat) :
    (2 * (r ^^^ s)) % 65536 = ((2 * r) % 65536) ^^^ ((2 * s) % 65536) := by
  have h := two_mul_mod_pow_xor r s 16
  norm_num at h
  exact h

theorem crcStepBit_xor (r s : Nat) (b c : Bool) :
    crcStepBit (r ^^^ s) (b ^^ c) = crcStepBit r b ^^^ crcStepBit s c := by
  unfold crcStepBit
  rw [Nat.testBit_xor, two_mul_mod_xor]
  cases hr : r.testBit 15 <;> cases hs : s.testBit 15 <;> cases b <;> cases c <;>
    simp [Nat.xor_assoc, Nat.xor_comm, xor_left_comm, Nat.xor_self, Nat.xor_zero,
      Nat.zero_xor, Nat.xor_cancel_left]

theorem crcStepByte_xor (r s x y : Nat) :
    crcStepByte (r ^^^ s) (x ^^^ y) = crcStepByte r x ^^^ crcStepByte s y := by
  have h8 : List.range 8 = [0, 1, 2, 3, 4, 5, 6, 7] := rfl
  simp only [crcStepByte, h8, List.foldl_cons, List.foldl_nil, Nat.testBit_xor,
    crcStepBit_xor]

theorem crcFold_xor :
    ∀ (bs cs : List Nat) (r s : Nat), bs.length = cs.length →
      (List.zipWith Nat.xor bs cs).foldl crcStepByte (r ^^^ s) =
        bs.foldl crcStepByte r ^^^ cs.foldl crcStepByte s := by
  intro bs
  induction bs with
  | nil => intro cs r s h; cases cs with
    | nil => simp
    | cons c cs => simp at h
  | cons b bs ih =>
    intro cs r s h
    cases cs with
    | nil => simp at h
    | cons c cs =>
      simp only [List.zipWith_cons_cons, List.foldl_cons]
      have hbc : Nat.xor b c = b ^^^ c := rfl
      rw [hbc, crcStepByte_xor]
      exact ih cs _ _ (by simpa using h)

/-! ## The CRC of a single-bit error pattern is nonzero -/

theorem crcStepBit_lt {r : Nat} {b : Bool} : crcStepBit r b < 65536 := by
  unfold crcStepBit
  have h1 : (2 * r) % 65536 < 65536 := Nat.mod_lt _ (by norm_num)
  split
  · have h16 : (65536 : Nat) = 2 ^ 16 := by norm_num
    rw [h16] at h1 ⊢
    exact Nat.xor_lt_two_pow h1 (by norm_num)
  · exact h1

theorem crcStepByte_lt {r x : Nat} : crcStepByte r x < 65536 := by
  have h8 : List.range 8 = [0, 1, 2, 3, 4, 5, 6, 7] := rfl
  simp only [crcStepByte, h8, List.foldl_cons, List.foldl_nil]
  exact crcStepBit_lt

theorem crcFold_lt : ∀ (l : List Nat) (r : Nat), r < 65536 →
    l.foldl crcStepByte r < 65536 := by
  intro l
  induction l with
  | nil => intro r hr; simpa using hr
  | cons a l ih => intro r _; exact ih _ crcStepByte_lt

theorem crcRegister_lt (l : List Nat) : crcRegister l < 65536 :=
  crcFold_lt l 0 (by norm_num)

/-- If the register is nonzero then shifting in a zero bit keeps it nonzero:
multiplication by x is injective modulo the polynomial, which has a nonzero
constant term. -/
theorem crcStepBit_false_ne_zero {r : Nat} (hr : r < 65536) (h0 : r ≠ 0) :
    crcStepBit r false ≠ 0 := by
  have h16 : (65536 : Nat) = 2 ^ 16 := by norm_num
  have hrpow : r < 2 ^ 16 := lt_of_lt_of_le hr (by norm_num)
  unfold crcStepBit
  cases ht : r.testBit 15 with
  | true =>
    rw [if_pos (by simp : (false ≠ true))]
    intro hcontra
    have ha : ((2 * r) % 65536).testBit 0 = false := by
      rw [h16, Nat.testBit_mod_two_pow, testBit_two_mul]
      simp
    have hx : (((2 * r) % 65536) ^^^ 0x8005).testBit 0 = true := by
      rw [Nat.testBit_xor, ha]
      decide
    rw [hcontra] at hx
    simp [Nat.zero_testBit] at hx
  | false =>
    rw [if_neg (by simp : ¬ (false ≠ false))]
    have hbit : ∃ i, r.testBit i = true := by
      by_contra hall
      push_neg at hall
      exact h0 (Nat.eq_of_testBit_eq fun i => by
        simp [Bool.eq_false_iff.mpr (hall i), Nat.zero_testBit])
    obtain ⟨i, hi⟩ := hbit
    have hlt16 : i < 16 := by
      by_contra hge
      push_neg at hge
      have hfalse : r.testBit i = false :=
        Nat.testBit_lt_two_pow
          (lt_of_lt_of_le hrpow (Nat.pow_le_pow_right (by norm_num) hge))
      simp [hfalse] at hi
    have hne15 : i ≠ 15 := fun h => by rw [h, ht] at hi; exact Bool.noConfusion hi
    intro hcontra
    have hb : ((2 * r) % 65536).testBit (i + 1) = true := by
      rw [h16, Nat.testBit_mod_two_pow, testBit_two_mul]
      have h1 : i + 1 < 16 := by omega
      simp [h1, hi]
    rw [hcontra] at hb
    simp [Nat.zero_testBit] at hb

theorem crcStepByte_zero_ne {r : Nat} (hr : r < 65536) (h0 : r ≠ 0) :
    crcStepByte r 0 ≠ 0 := by
  have h8 : List.range 8 = [0, 1, 2, 3, 4, 5, 6, 7] := rfl
  simp only [crcStepByte, h8, List.foldl_cons, List.foldl_nil, Nat.zero_testBit]
  have p1 : crcStepBit r false ≠ 0 := crcStepBit_false_ne_zero hr h0
  have p2 := crcStepBit_false_ne_zero crcStepBit_lt p1
  have p3 := crcStepBit_false_ne_zero crcStepBit_lt p2
  have p4 := crcStepBit_false_ne_zero crcStepBit_lt p3
  have p5 := crcStepBit_false_ne_zero crcStepBit_lt p4
  have p6 := crcStepBit_false_ne_zero crcStepBit_lt p5
  have p7 := crcStepBit_false_ne_zero crcStepBit_lt p6
  exact crcStepBit_false_ne_zero crcStepBit_lt p7

theorem crcFold_replicate_zero_eq (j : Nat) :
    (List.replicate j 0).foldl crcStepByte 0 = 0 := by
  induction j with
  | zero => rfl
  | succ j ih =>
    rw [List.replicate_succ, List.foldl_cons,
      (by decide : crcStepByte 0 0 = 0)]
    exact ih

theorem crcFold_replicate_zero_ne :
    ∀ (m : Nat) {r : Nat}, r < 65536 → r ≠ 0 →
      (List.replicate m 0).foldl crcStepByte r ≠ 0 := by
  intro m
  induction m with
  | zero => intro r _ h0; simpa using h0
  | succ m ih =>
    intro r hr h0
    rw [List.replicate_succ, List.foldl_cons]
    exact ih crcStepByte_lt (crcStepByte_zero_ne hr h0)

/-- A single-bit error pattern: `j` zero bytes, the byte `2^k`, then `m`
zero bytes. -/
def errBytes (j k m : Nat) : List Nat :=
  List.replicate j 0 ++ 2 ^ k :: List.replicate m 0

theorem crcStepByte_zero_pow_ne {k : Nat} (hk : k < 8) :
    crcStepByte 0 (2 ^ k) ≠ 0 := by
  interval_cases k <;> decide

/-- The CRC register of any single-bit error pattern is nonzero: single-bit
errors are always detected. -/
theorem crcRegister_errBytes_ne_zero {j k m : Nat} (hk : k < 8) :
    crcRegister (errBytes j k m) ≠ 0 := by
  unfold crcRegister errBytes
  rw [List.foldl_append, crcFold_replicate_zero_eq, List.foldl_cons]
  exact crcFold_replicate_zero_ne m crcStepByte_lt (crcStepByte_zero_pow_ne hk)

theorem errBytes_length (j k m : Nat) : (errBytes j k m).length = j + 1 + m := by
  simp [errBytes]
  omega

theorem zipWith_xor_replicate_zero (l : List Nat) :
    List.zipWith Nat.xor l (List.replicate l.length 0) = l := by
  induction l with
  | nil => rfl
  | cons a l ih =>
    simp only [List.length_cons, List.replicate_succ, List.zipWith_cons_cons, ih]
    congr 1
    exact Nat.xor_zero a

theorem flip_eq_zipWith (k : Nat) :
    ∀ (l : List Nat) (j : Nat), j < l.length →
      l.set j (l.getD j 0 ^^^ 2 ^ k) =
        List.zipWith Nat.xor l (errBytes j k (l.length - j - 1)) := by
  intro l
  induction l with
  | nil => intro j hj; simp at hj
  | cons a l ih =>
    intro j hj
    cases j with
    | zero =>
      rw [List.set_cons_zero, List.getD_cons_zero]
      have hlen : (a :: l).length - 0 - 1 = l.length := by simp
      rw [hlen]
      simp only [errBytes, List.replicate_zero, List.nil_append,
        List.zipWith_cons_cons]
      congr 1
      exact (zipWith_xor_replicate_zero l).symm
    | succ j =>
      have hj' : j < l.length := by simpa using hj
      have hlen : (a :: l).length - (j + 1) - 1 = l.length - j - 1 := by
        simp only [List.length_cons]; omega
      rw [List.set_cons_succ, List.getD_cons_succ, hlen]
      simp only [errBytes, List.replicate_succ, List.cons_append,
        List.zipWith_cons_cons]
      congr 1
      · exact (Nat.xor_zero a).symm
      · exact ih j hj'

/-- Flipping bit `k` of byte `j` of the message always changes the CRC
register. -/
theorem crcRegister_flip_ne (l : List Nat) (j k : Nat)
    (hj : j < l.length) (hk : k < 8) :
    crcRegister (l.set j (l.getD j 0 ^^^ 2 ^ k)) ≠ crcRegister l := by
  rw [flip_eq_zipWith k l j hj]
  have hlen : l.length = (errBytes j k (l.length - j - 1)).length := by
    rw [errBytes_length]; omega
  have hxor : crcRegister (List.zipWith Nat.xor l (errBytes j k (l.length - j - 1))) =
      crcRegister l ^^^ crcRegister (errBytes j k (l.length - j - 1)) := by
    unfold crcRegister
    have h := crcFold_xor l (errBytes j k (l.length - j - 1)) 0 0 hlen
    simpa using h
  rw [hxor]
  intro hcontra
  have hzero : crcRegister (errBytes j k (l.length - j - 1)) = 0 := by
    have h1 := congrArg (fun x => crcRegister l ^^^ x) hcontra.symm
    simpa [← Nat.xor_assoc, Nat.xor_self, Nat.zero_xor, Nat.xor_cancel_left] using h1.symm
  exact crcRegister_errBytes_ne_zero hk hzero

/-- Two 16-bit registers with equal little-endian byte encodings are equal. -/
theorem reg_eq_of_bytes {a b : Nat} (ha : a < 65536) (hb : b < 65536)
    (h1 : a % 256 = b % 256) (h2 : (a >>> 8) % 256 = (b >>> 8) % 256) : a = b := by
  rw [Nat.shiftRight_eq_div_pow, Nat.shiftRight_eq_div_pow] at h2
  norm_num at h2
  omega

theorem ne_xor_pow {a k : Nat} : a ≠ a ^^^ 2 ^ k := by
  intro h
  have h1 : a ^^^ a = a ^^^ (a ^^^ 2 ^ k) := congrArg (a ^^^ ·) h
  rw [Nat.xor_self, Nat.xor_cancel_left] at h1
  exact (Nat.pos_iff_ne_zero.mp (Nat.two_pow_pos k)) h1.symm

/-! ## Command framer (`send_atecc_cmd`) -/

/-- The `command` buffer of `send_atecc_cmd` before the CRC trailer:
`{0x07 + data_len, opcode, param1, param2 & 0xFF, (param2 >> 8) & 0xFF,
data...}` (all stores are `uint8_t`, hence the reductions modulo 256). -/
def commandBody (opcode param1 param2 : Nat) (payload : List Nat) : List Nat :=
  [(0x07 + payload.length) % 256, opcode % 256, param1 % 256,
    param2 % 256, (param2 >>> 8) % 256] ++ payload

/-- The complete framed command: body plus the little-endian CRC over the
body (`calc_crc16_ccitt(5 + data_len, command, &command[5 + data_len])`). -/
def buildCommand (opcode param1 param2 : Nat) (payload : List Nat) : List Nat :=
  commandBody opcode param1 param2 payload ++
    calc_crc16_ccitt (commandBody opcode param1 param2 payload)

theorem commandBody_length (opcode param1 param2 : Nat) (payload : List Nat) :
    (commandBody opcode param1 param2 payload).length = 5 + payload.length := by
  simp [commandBody]
  omega

theorem buildCommand_length (opcode param1 param2 : Nat) (payload : List Nat) :
    (buildCommand opcode param1 param2 payload).length = 7 + payload.length := by
  simp [buildCommand, calc_crc16_ccitt, commandBody]
  omega

/-- Validating any body followed by its own CRC trailer succeeds. -/
theorem validate_crc_append (body : List Nat) (hb : 1 ≤ body.length) :
    validate_crc (body ++ calc_crc16_ccitt body) (body.length + 2) = true := by
  unfold validate_crc
  rw [if_neg (by omega)]
  rw [show body.length + 2 - 2 = body.length from by omega]
  rw [List.take_left]
  rw [List.getD_append_right body _ 0 body.length (le_refl _)]
  rw [show body.length + 2 - 1 = body.length + 1 from by omega]
  rw [List.getD_append_right body _ 0 (body.length + 1) (by omega)]
  simp

/-- Flipping any single bit of a framed message (body plus CRC trailer)
makes validation fail. -/
theorem validate_crc_append_flip (body : List Nat) (hb : 1 ≤ body.length)
    (j k : Nat) (hj : j < body.length + 2) (hk : k < 8) :
    validate_crc
      ((body ++ calc_crc16_ccitt body).set j
        (((body ++ calc_crc16_ccitt body).getD j 0) ^^^ 2 ^ k))
      (body.length + 2) = false := by
  by_cases hjm : j < body.length
  · -- the flip lands in the message region: the recomputed CRC changes
    have hgd : (body ++ calc_crc16_ccitt body).getD j 0 = body.getD j 0 :=
      List.getD_append _ _ _ j hjm
    have hset : ∀ x, (body ++ calc_crc16_ccitt body).set j x =
        body.set j x ++ calc_crc16_ccitt body := by
      intro x; rw [List.set_append, if_pos hjm]
    rw [hgd, hset]
    unfold validate_crc
    rw [if_neg (by omega)]
    rw [show body.length + 2 - 2 = body.length from by omega]
    have htake : (body.set j (body.getD j 0 ^^^ 2 ^ k) ++
        calc_crc16_ccitt body).take body.length =
        body.set j (body.getD j 0 ^^^ 2 ^ k) := by
      conv_lhs => rw [← List.length_set body j (body.getD j 0 ^^^ 2 ^ k)]
      exact List.take_left _ _
    rw [htake]
    have hlen_set : (body.set j (body.getD j 0 ^^^ 2 ^ k)).length = body.length :=
      List.length_set body j _
    have hgd1 : (body.set j (body.getD j 0 ^^^ 2 ^ k) ++
        calc_crc16_ccitt body).getD body.length 0 =
        (calc_crc16_ccitt body).getD 0 0 := by
      rw [List.getD_append_right _ _ _ _ (by rw [hlen_set]), hlen_set,
        Nat.sub_self]
    rw [show body.length + 2 - 1 = body.length + 1 from by omega]
    have hgd2 : (body.set j (body.getD j 0 ^^^ 2 ^ k) ++
        calc_crc16_ccitt body).getD (body.length + 1) 0 =
        (calc_crc16_ccitt body).getD 1 0 := by
      rw [List.getD_append_right _ _ _ _ (by rw [hlen_set]; omega), hlen_set]
      norm_num
    rw [hgd1, hgd2]
    by_contra hcon
    rw [Bool.not_eq_false, Bool.and_eq_true, beq_iff_eq, beq_iff_eq] at hcon
    simp only [calc_crc16_ccitt, List.getD_cons_zero, List.getD_cons_succ] at hcon
    exact crcRegister_flip_ne body j k hjm hk
      (reg_eq_of_bytes (crcRegister_lt _) (crcRegister_lt _) hcon.1 hcon.2)
  · -- the flip lands in the CRC trailer: the stored trailer changes
    have hj2 : j = body.length ∨ j = body.length + 1 := by omega
    have hset : ∀ x, (body ++ calc_crc16_ccitt body).set j x =
        body ++ (calc_crc16_ccitt body).set (j - body.length) x := by
      intro x; rw [List.set_append, if_neg hjm]
    rcases hj2 with hj2 | hj2
    · subst hj2
      have hgd : (body ++ calc_crc16_ccitt body).getD body.length 0 =
          (calc_crc16_ccitt body).getD 0 0 := by
        rw [List.getD_append_right _ _ _ _ (le_refl _), Nat.sub_self]
      rw [hgd, hset, Nat.sub_self]
      unfold validate_crc
      rw [if_neg (by omega)]
      rw [show body.length + 2 - 2 = body.length from by omega]
      simp only [calc_crc16_ccitt, List.getD_cons_zero, List.set_cons_zero]
      rw [List.take_left, List.getD_append_right _ _ _ _ (le_refl _), Nat.sub_self]
      rw [show body.length + 2 - 1 = body.length + 1 from by omega]
      rw [List.getD_append_right _ _ _ _ (by omega : body.length ≤ body.length + 1)]
      rw [show body.length + 1 - body.length = 1 from by omega]
      simp only [List.getD_cons_zero, List.getD_cons_succ]
      rw [Bool.and_eq_false_iff]
      exact Or.inl (beq_eq_false_iff_ne.mpr ne_xor_pow)
    · subst hj2
      have hgd : (body ++ calc_crc16_ccitt body).getD (body.length + 1) 0 =
          (calc_crc16_ccitt body).getD 1 0 := by
        rw [List.getD_append_right _ _ _ _ (by omega : body.length ≤ body.length + 1)]
        rw [show body.length + 1 - body.length = 1 from by omega]
      rw [hgd, hset, show body.length + 1 - body.length = 1 from by omega]
      unfold validate_crc
      rw [if_neg (by omega)]
      rw [show body.length + 2 - 2 = body.length from by omega]
      simp only [calc_crc16_ccitt, List.getD_cons_zero, List.getD_cons_succ,
        List.set_cons_succ, List.set_cons_zero]
      rw [List.take_left, List.getD_append_right _ _ _ _ (le_refl _), Nat.sub_self]
      rw [show body.length + 2 - 1 = body.length + 1 from by omega]
      rw [List.getD_append_right _ _ _ _ (by omega : body.length ≤ body.length + 1)]
      rw [show body.length + 1 - body.length = 1 from by omega]
      simp only [List.getD_cons_zero, List.getD_cons_succ]
      rw [Bool.and_eq_false_iff]
      exact Or.inr (beq_eq_false_iff_ne.mpr ne_xor_pow)

/-- C3: for every opcode, `param1`, `param2` and payload within the size
limits, the framed command (length prefix, header, payload, 2-byte CRC
trailer) passes `validate_crc`; and flipping any single bit anywhere in
the built frame makes `validate_crc` return `false`. -/
theorem frame_roundtrip_bitflip (opcode param1 param2 : Nat) (payload : List Nat)
    (hop : opcode < 256) (hp1 : param1 < 256) (hp2 : param2 < 65536)
    (hpl : ∀ b ∈ payload, b < 256) (hlen : payload.length ≤ 121) :
    validate_crc (buildCommand opcode param1 param2 payload)
        (7 + payload.length) = true ∧
    ∀ j k, j < 7 + payload.length → k < 8 →
      validate_crc
        ((buildCommand opcode param1 param2 payload).set j
          ((buildCommand opcode param1 param2 payload).getD j 0 ^^^ 2 ^ k))
        (7 + payload.length) = false := by
  have hBlen : (commandBody opcode param1 param2 payload).length =
      5 + payload.length := commandBody_length _ _ _ _
  constructor
  · have h := validate_crc_append (commandBody opcode param1 param2 payload)
      (by omega)
    rw [hBlen] at h
    rw [show 7 + payload.length = 5 + payload.length + 2 from by omega]
    exact h
  · intro j k hj hk
    have h := validate_crc_append_flip (commandBody opcode param1 param2 payload)
      (by omega) j k (by omega) hk
    rw [hBlen] at h
    rw [show 7 + payload.length = 5 + payload.length + 2 from by omega]
    exact h

/-- Witness for C3 at a concrete frame. -/
theorem frame_roundtrip_bitflip_witness :
    validate_crc (buildCommand 0x47 0x01 0x0000 [0xAB]) (7 + 1) = true ∧
    validate_crc ((buildCommand 0x47 0x01 0x0000 [0xAB]).set 5
        ((buildCommand 0x47 0x01 0x0000 [0xAB]).getD 5 0 ^^^ 2 ^ 3)) (7 + 1) = false := by
  have h := frame_roundtrip_bitflip 0x47 0x01 0x0000 [0xAB]
    (by norm_num) (by norm_num) (by norm_num)
    (by intro b hb; simp at hb; omega) (by simp)
  exact ⟨h.1, h.2 5 3 (by norm_num) (by norm_num)⟩

/-! ## Response reader (`receive_atecc_response`) -/

def ATECC_RESPONSE_SIZE : Nat := 128

def ATECC_STATUS_SUCCESS : Nat := 0x00

/-- The distinct early-return classes of `receive_atecc_response`, one per
`return false` site of the source. -/
inductive RecvErr
  | invalidArg
  | malformedCount (count : Nat)
  | emptySuccess
  | deviceStatus (code : Nat)
  | insufficientData (available expected : Nat)
  deriving DecidableEq, Repr

/-- `read_length` of `receive_atecc_response`, clamped to the 128-byte
local buffer. -/
def readLen (full_response : Bool) (length : Nat) : Nat :=
  min (if full_response then length + 3 else length + 1) ATECC_RESPONSE_SIZE

/-- The zero-initialised 128-byte `response` buffer after the bus read
filled its first `read_length` bytes from the wire bytes `raw`. -/
def responseBuf (read_length : Nat) (raw : List Nat) : List Nat :=
  (raw.take read_length ++ List.replicate ATECC_RESPONSE_SIZE 0).take
    ATECC_RESPONSE_SIZE

/-- `receive_atecc_response` on wire bytes `raw` (the transport transaction
itself assumed non-fatal).  Note the source performs no CRC validation:
`full_response` only widens the read. -/
def receive_atecc_response (bufferPresent : Bool) (length : Nat)
    (full_response : Bool) (raw : List Nat) : Except RecvErr (List Nat) :=
  if !bufferPresent || length == 0 then .error .invalidArg
  else if (responseBuf (readLen full_response length) raw).getD 0 0 < 4 then
    .error (.malformedCount ((responseBuf (readLen full_response length) raw).getD 0 0))
  else if (responseBuf (readLen full_response length) raw).getD 0 0 = 4 then
    if (responseBuf (readLen full_response length) raw).getD 1 0 ≠ ATECC_STATUS_SUCCESS then
      .error (.deviceStatus ((responseBuf (readLen full_response length) raw).getD 1 0))
    else .error .emptySuccess
  else if (responseBuf (readLen full_response length) raw).getD 0 0 - 1 < length then
    .error (.insufficientData
      ((responseBuf (readLen full_response length) raw).getD 0 0 - 1) length)
  else .ok (((responseBuf (readLen full_response length) raw).drop 1).take length)

theorem responseBuf_getElem? {read_length j : Nat} (raw : List Nat)
    (hj : j < read_length) (hj128 : j < ATECC_RESPONSE_SIZE) :
    (responseBuf read_length raw)[j]? = some (raw.getD j 0) := by
  unfold responseBuf
  rw [List.getElem?_take, if_pos hj128, List.getElem?_append]
  by_cases hlen : j < (raw.take read_length).length
  · rw [if_pos hlen, List.getElem?_take, if_pos hj]
    have hjr : j < raw.length := by
      simp [List.length_take] at hlen
      omega
    rw [List.getD_eq_getElem?_getD, List.getElem?_eq_getElem hjr]
    rfl
  · rw [if_neg hlen, List.getElem?_replicate,
      if_pos (by unfold ATECC_RESPONSE_SIZE at hj128 ⊢; omega)]
    have hjr : raw.length ≤ j := by
      simp [List.length_take] at hlen
      omega
    rw [List.getD_eq_getElem?_getD, List.getElem?_eq_none hjr]
    rfl

theorem responseBuf_getD {read_length j : Nat} (raw : List Nat)
    (hj : j < read_length) (hj128 : j < ATECC_RESPONSE_SIZE) :
    (responseBuf read_length raw).getD j 0 = raw.getD j 0 := by
  rw [List.getD_eq_getElem?_getD, responseBuf_getElem? raw hj hj128]
  rfl

theorem responseBuf_payload_eq {RL1 RL2 length : Nat} (raw : List Nat)
    (h1 : length + 1 ≤ RL1) (h2 : length + 1 ≤ RL2)
    (hr1 : RL1 ≤ ATECC_RESPONSE_SIZE) (hr2 : RL2 ≤ ATECC_RESPONSE_SIZE) :
    ((responseBuf RL1 raw).drop 1).take length =
      ((responseBuf RL2 raw).drop 1).take length := by
  apply List.ext_getElem?
  intro i
  by_cases hi : i < length
  · rw [List.getElem?_take, if_pos hi, List.getElem?_take, if_pos hi,
      List.getElem?_drop, List.getElem?_drop,
      responseBuf_getElem? raw (by omega) (by omega),
      responseBuf_getElem? raw (by omega) (by omega)]
  · rw [List.getElem?_take_eq_none (by omega), List.getElem?_take_eq_none (by omega)]

/-- C2 (amended): the response reader performs no checksum validation at
all — requesting the checksum-bearing read (`full_response = true`) only
widens the bus read and never changes the outcome, so a mismatched
trailing CRC cannot fail the call. -/
theorem receive_checksum_flag_irrelevant (bufferPresent : Bool)
    (length : Nat) (raw : List Nat) :
    receive_atecc_response bufferPresent length true raw =
      receive_atecc_response bufferPresent length false raw := by
  unfold receive_atecc_response
  by_cases hbp : (!bufferPresent || length == 0) = true
  · rw [if_pos hbp, if_pos hbp]
  · rw [if_neg hbp, if_neg hbp]
    have hl : 0 < length := by
      rcases Nat.eq_zero_or_pos length with h | h
      · exfalso; apply hbp; simp [h]
      · exact h
    have hRL : ∀ b, readLen b length ≤ ATECC_RESPONSE_SIZE := fun b =>
      min_le_right _ _
    by_cases hbig : 127 ≤ length
    · have heq : readLen true length = readLen false length := by
        unfold readLen ATECC_RESPONSE_SIZE
        simp only [Bool.false_eq_true, if_true, if_false, ite_true, ite_false]
        omega
      rw [heq]
    · push_neg at hbig
      have hRLt : length + 1 ≤ readLen true length := by
        unfold readLen ATECC_RESPONSE_SIZE; simp; omega
      have hRLf : length + 1 ≤ readLen false length := by
        unfold readLen ATECC_RESPONSE_SIZE; simp; omega
      have h0 : (responseBuf (readLen true length) raw).getD 0 0 =
          (responseBuf (readLen false length) raw).getD 0 0 := by
        rw [responseBuf_getD raw (by omega) (by unfold ATECC_RESPONSE_SIZE; omega),
          responseBuf_getD raw (by omega) (by unfold ATECC_RESPONSE_SIZE; omega)]
      have h1 : (responseBuf (readLen true length) raw).getD 1 0 =
          (responseBuf (readLen false length) raw).getD 1 0 := by
        rw [responseBuf_getD raw (by omega) (by unfold ATECC_RESPONSE_SIZE; omega),
          responseBuf_getD raw (by omega) (by unfold ATECC_RESPONSE_SIZE; omega)]
      have hpay := responseBuf_payload_eq raw hRLt hRLf (hRL true) (hRL false)
      rw [h0, h1, hpay]

/-- C2 counterexample: a response whose trailing 2-byte checksum is wrong
(`validate_crc` rejects the frame) is nevertheless accepted by
`receive_atecc_response` with the checksum-bearing read requested, and the
payload is handed to the caller. -/
theorem receive_bad_checksum_accepted :
    validate_crc [7, 1, 2, 3, 4, 0xFF, 0xFF] 7 = false ∧
    receive_atecc_response true 4 true [7, 1, 2, 3, 4, 0xFF, 0xFF] =
      .ok [1, 2, 3, 4] := by
  constructor
  · decide
  · rfl

/-- C7: classification of responses by count byte — a count below 4 is a
malformed frame; an exactly-4 count with status `0x00` is the
empty-success failure, with nonzero status the device-status failure
surfacing that raw code; a payload is produced only when count exceeds 4. -/
theorem receive_count_classification (length : Nat) (full_response : Bool)
    (raw : List Nat) (hl : 0 < length) :
    (raw.getD 0 0 < 4 →
      receive_atecc_response true length full_response raw =
        .error (.malformedCount (raw.getD 0 0))) ∧
    (raw.getD 0 0 = 4 → raw.getD 1 0 = 0 →
      receive_atecc_response true length full_response raw =
        .error .emptySuccess) ∧
    (raw.getD 0 0 = 4 → raw.getD 1 0 ≠ 0 →
      receive_atecc_response true length full_response raw =
        .error (.deviceStatus (raw.getD 1 0))) ∧
    (∀ payload, receive_atecc_response true length full_response raw =
        .ok payload → 4 < raw.getD 0 0) := by
  have hbp : (!(true : Bool) || length == 0) = false := by simp; omega
  have h0 : (responseBuf (readLen full_response length) raw).getD 0 0 =
      raw.getD 0 0 := by
    apply responseBuf_getD raw
    · unfold readLen ATECC_RESPONSE_SIZE; cases full_response <;> simp <;> omega
    · unfold ATECC_RESPONSE_SIZE; omega
  have h1 : (responseBuf (readLen full_response length) raw).getD 1 0 =
      raw.getD 1 0 := by
    apply responseBuf_getD raw
    · unfold readLen ATECC_RESPONSE_SIZE; cases full_response <;> simp <;> omega
    · unfold ATECC_RESPONSE_SIZE; omega
  refine ⟨?_, ?_, ?_, ?_⟩
  · intro hc
    unfold receive_atecc_response
    rw [hbp, if_neg (by simp), h0, if_pos hc]
  · intro hc hs
    unfold receive_atecc_response
    rw [hbp, if_neg (by simp), h0, if_neg (by omega), if_pos hc, h1]
    rw [if_neg (by unfold ATECC_STATUS_SUCCESS; omega)]
  · intro hc hs
    unfold receive_atecc_response
    rw [hbp, if_neg (by simp), h0, if_neg (by omega), if_pos hc, h1]
    rw [if_pos (by unfold ATECC_STATUS_SUCCESS; omega)]
  · intro payload hok
    unfold receive_atecc_response at hok
    rw [hbp, if_neg (by simp), h0] at hok
    by_cases hc4 : raw.getD 0 0 < 4
    · rw [if_pos hc4] at hok; exact absurd hok (by simp)
    · rw [if_neg hc4] at hok
      by_cases hc : raw.getD 0 0 = 4
      · rw [if_pos hc] at hok
        by_cases hs : (responseBuf (readLen full_response length) raw).getD 1 0 ≠ ATECC_STATUS_SUCCESS
        · rw [if_pos hs] at hok; exact absurd hok (by simp)
        · rw [if_neg hs] at hok; exact absurd hok (by simp)
      · omega

/-- Witness for C7 at concrete responses. -/
theorem receive_count_classification_witness :
    receive_atecc_response true 4 true [3, 0, 0, 0] =
      .error (.malformedCount 3) ∧
    receive_atecc_response true 4 true [4, 0, 0, 0] =
      .error .emptySuccess ∧
    receive_atecc_response true 4 true [4, 0x0F, 0, 0] =
      .error (.deviceStatus 0x0F) := by
  have h := receive_count_classification 4 true [3, 0, 0, 0] (by norm_num)
  have h2 := receive_count_classification 4 true [4, 0, 0, 0] (by norm_num)
  have h3 := receive_count_classification 4 true [4, 0x0F, 0, 0] (by norm_num)
  exact ⟨h.1 (by decide), h2.2.1 (by decide) (by decide),
    h3.2.2.1 (by decide) (by decide)⟩

/-! ## The framer's argument validation (`send_atecc_cmd`, early returns) -/

def ATECC_CMD_SIZE : Nat := 128

def ATECC_WORDADDR_CMD : Nat := 0x03

/-- Observable outcome of `send_atecc_cmd` before/at the transport call:
either the `EINVAL` early return (no frame built, no transport call), or
the full wire frame (word address byte followed by the framed command)
handed to the bus. -/
inductive SendOutcome
  | invalidArg
  | framed (wire : List Nat)
  deriving DecidableEq, Repr

/-- `send_atecc_cmd`'s argument checking and frame construction.  `data`
is the nullable payload pointer, `data_len` the declared length (a
`uint8_t`); `memcpy(&command[5], data, data_len)` is modelled by taking
`data_len` bytes of the pointed-to buffer. -/
def send_atecc_cmd (opcode param1 param2 : Nat) (data : Option (List Nat))
    (data_len : Nat) : SendOutcome :=
  if data_len > ATECC_CMD_SIZE - 7 then .invalidArg
  else if 0 < data_len ∧ data = none then .invalidArg
  else .framed (ATECC_WORDADDR_CMD ::
    buildCommand opcode param1 param2 ((data.getD []).take data_len))

/-- C5 counterexample: a present payload pointer with declared length 0 is
accepted by the framer (a frame is emitted), not rejected as an
invalid-argument error as the claim requires. -/
theorem send_cmd_zero_len_pointer_accepted :
    send_atecc_cmd 0x02 0x00 0x0000 (some [0xAB]) 0 =
      .framed (ATECC_WORDADDR_CMD :: buildCommand 0x02 0x00 0x0000 []) ∧
    send_atecc_cmd 0x02 0x00 0x0000 (some [0xAB]) 0 ≠ .invalidArg := by
  exact ⟨rfl, by decide⟩

/-- C5 (amended): the framer fails with the invalid-argument early return
— emitting no frame and issuing no transport call — exactly when the
declared payload length exceeds `ATECC_CMD_SIZE - 7`, or a nonzero
declared length comes with an absent payload pointer.  (A present pointer
with zero declared length is accepted.) -/
theorem send_cmd_invalid_iff (opcode param1 param2 : Nat)
    (data : Option (List Nat)) (data_len : Nat) (hdl : data_len < 256) :
    send_atecc_cmd opcode param1 param2 data data_len = .invalidArg ↔
      (data_len > ATECC_CMD_SIZE - 7 ∨ (0 < data_len ∧ data = none)) := by
  unfold send_atecc_cmd
  by_cases h1 : data_len > ATECC_CMD_SIZE - 7
  · rw [if_pos h1]; simp [h1]
  · rw [if_neg h1]
    by_cases h2 : 0 < data_len ∧ data = none
    · rw [if_pos h2]; simp [h1, h2]
    · rw [if_neg h2]; simp [h1, h2]

/-- Witness for C5 at a concrete over-long payload. -/
theorem send_cmd_invalid_iff_witness :
    send_atecc_cmd 0x02 0x00 0x0000 none 122 = .invalidArg :=
  (send_cmd_invalid_iff 0x02 0x00 0x0000 none 122 (by norm_num)).mpr
    (Or.inl (by decide))

/-! ## Streaming SHA-256 phase sequence (`compute_sha256`) -/

def ATECC_CMD_SHA : Nat := 0x47

/-- One `send_atecc_cmd` issued by `compute_sha256`: opcode, `param1`
(the phase byte), `param2` and payload bytes. -/
structure ShaPhase where
  opcode : Nat
  param1 : Nat
  param2 : Nat
  payload : List Nat
  deriving DecidableEq, Repr

/-- The update phases of `compute_sha256`'s
`while ((data_len - offset) >= 64)` loop: one 64-byte chunk per pass. -/
def shaUpdatePhases (data : List Nat) : List ShaPhase :=
  if h : 64 ≤ data.length then
    ⟨ATECC_CMD_SHA, 0x01, 0x0000, data.take 64⟩ :: shaUpdatePhases (data.drop 64)
  else []
termination_by data.length
decreasing_by simp [List.length_drop]; omega

/-- The full phase sequence `compute_sha256` issues: the start phase, the
update phases, then the end phase whose `param2` is the remaining byte
count and whose payload is the remaining tail. -/
def shaPhases (data : List Nat) : List ShaPhase :=
  ⟨ATECC_CMD_SHA, 0x00, 0x0000, []⟩ ::
    (shaUpdatePhases data ++
      [⟨ATECC_CMD_SHA, 0x02, data.length % 64,
        data.drop (64 * (data.length / 64))⟩])

theorem shaUpdatePhases_closed_form :
    ∀ (fuel : Nat) (data : List Nat), data.length ≤ fuel →
      shaUpdatePhases data = (List.range (data.length / 64)).map
        (fun i => ⟨ATECC_CMD_SHA, 0x01, 0x0000, (data.drop (64 * i)).take 64⟩) := by
  intro fuel
  induction fuel with
  | zero =>
    intro data h
    have hd : data.length = 0 := by omega
    rw [shaUpdatePhases]
    rw [dif_neg (by omega), hd]
    rfl
  | succ fuel ih =>
    intro data h
    rw [shaUpdatePhases]
    by_cases h64 : 64 ≤ data.length
    · rw [dif_pos h64]
      rw [ih (data.drop 64) (by simp [List.length_drop]; omega)]
      have hq : data.length / 64 = (data.drop 64).length / 64 + 1 := by
        simp [List.length_drop]
        omega
      rw [hq, List.range_succ_eq_map]
      simp only [List.map_cons, List.map_map, List.cons.injEq]
      constructor
      · simp
      · apply List.map_congr_left
        intro a _
        simp only [Function.comp_apply, ShaPhase.mk.injEq, true_and,
          List.drop_drop]
        rw [show 64 + 64 * a = 64 * (a + 1) from by ring]
    · rw [dif_neg h64]
      rw [Nat.div_eq_of_lt (by omega)]
      rfl

/-- C4: for every input, the streaming hash issues exactly one start
phase, then `⌊n/64⌋` update phases carrying the successive 64-byte chunks
in order, then one end phase with `param2 = n mod 64` and the remaining
`n mod 64` bytes as payload; for a 130-byte input this is exactly two
64-byte updates and one 2-byte end phase. -/
theorem sha_phase_sequence (data : List Nat) :
    shaPhases data =
      ⟨ATECC_CMD_SHA, 0x00, 0x0000, []⟩ ::
        ((List.range (data.length / 64)).map
          (fun i => ⟨ATECC_CMD_SHA, 0x01, 0x0000, (data.drop (64 * i)).take 64⟩) ++
          [⟨ATECC_CMD_SHA, 0x02, data.length % 64,
            data.drop (64 * (data.length / 64))⟩]) ∧
    (∀ i, i < data.length / 64 → ((data.drop (64 * i)).take 64).length = 64) ∧
    (data.drop (64 * (data.length / 64))).length = data.length % 64 ∧
    (data.length = 130 →
      shaPhases data =
        [⟨ATECC_CMD_SHA, 0x00, 0x0000, []⟩,
         ⟨ATECC_CMD_SHA, 0x01, 0x0000, data.take 64⟩,
         ⟨ATECC_CMD_SHA, 0x01, 0x0000, (data.drop 64).take 64⟩,
         ⟨ATECC_CMD_SHA, 0x02, 2, data.drop 128⟩] ∧
      (data.drop 128).length = 2) := by
  have hcf := shaUpdatePhases_closed_form data.length data (le_refl _)
  refine ⟨?_, ?_, ?_, ?_⟩
  · unfold shaPhases
    rw [hcf]
  · intro i hi
    simp [List.length_take, List.length_drop]
    omega
  · simp [List.length_drop]
    omega
  · intro h130
    constructor
    · unfold shaPhases
      rw [hcf, h130]
      norm_num
      rw [show List.range 2 = [0, 1] from rfl]
      simp
    · simp [List.length_drop, h130]

/-- Witness for C4 on a concrete 130-byte input. -/
theorem sha_phase_sequence_witness :
    shaPhases (List.replicate 130 0x5A) =
      [⟨ATECC_CMD_SHA, 0x00, 0x0000, []⟩,
       ⟨ATECC_CMD_SHA, 0x01, 0x0000, (List.replicate 130 0x5A).take 64⟩,
       ⟨ATECC_CMD_SHA, 0x01, 0x0000, ((List.replicate 130 0x5A).drop 64).take 64⟩,
       ⟨ATECC_CMD_SHA, 0x02, 2, (List.replicate 130 0x5A).drop 128⟩] ∧
    ((List.replicate 130 0x5A).drop 128).length = 2 :=
  (sha_phase_sequence (List.replicate 130 0x5A)).2.2.2 (by simp)

/-! ## Range-mapped random number (`map_random_to_range`,
`genrate_random_number_in_range`) -/

/-- The big-endian accumulation loop of `map_random_to_range`:
`random_value = (random_value << 8) | random_bytes[i]` over `i = 0..7`,
in `uint64_t` arithmetic. -/
def random_value64 (random_bytes : List Nat) : Nat :=
  (List.range 8).foldl
    (fun acc i => ((acc <<< 8) % 2 ^ 64) ||| random_bytes.getD i 0) 0

/-- `map_random_to_range`: `min + (random_value % (max - min + 1))` in
`uint64_t` arithmetic (wrapping subtraction and addition). -/
def map_random_to_range (random_bytes : List Nat) (mi ma : Nat) : Nat :=
  (mi + random_value64 random_bytes %
    (((ma + 2 ^ 64 - mi) % 2 ^ 64 + 1) % 2 ^ 64)) % 2 ^ 64

/-- The value printed by `genrate_random_number_in_range` once the 32
random payload bytes have been received: the source passes `&resp[1]`,
i.e. the payload shifted by one byte. -/
def genrate_mapped_value (payload : List Nat) (mi ma : Nat) : Nat :=
  map_random_to_range (payload.drop 1) mi ma

/-- C6 counterexample: on the random payload
`00 00 00 00 00 00 00 07 09 00 ...` with range `[0, 255]` the operation
reports 9 — computed from payload bytes 1..8 — whereas interpreting the
*first* 8 returned bytes big-endian, as the claim states, yields
`min + (7 % 256) = 7`. -/
theorem genrate_mapped_value_skips_first_byte :
    genrate_mapped_value ([0, 0, 0, 0, 0, 0, 0, 7, 9] ++ List.replicate 23 0)
        0 255 = 9 ∧
    map_random_to_range ([0, 0, 0, 0, 0, 0, 0, 7, 9] ++ List.replicate 23 0)
        0 255 = 7 ∧
    (9 : Nat) ≠ 7 := by
  refine ⟨?_, ?_, by norm_num⟩ <;> decide

/-- C6 (amended): the range-mapped random variant interprets the 8 bytes
at offsets 1..8 of the returned random payload (skipping the first
returned byte) as a big-endian 64-bit integer `v` and reports
`min + (v mod (max - min + 1))` in `uint64_t` arithmetic; whenever
`min ≤ max < 2^64` and `max - min + 1` is nonzero as a `uint64_t`, the
reported value lies in `[min, max]`. -/
theorem genrate_mapped_value_in_range (payload : List Nat) (mi ma : Nat)
    (hmi : mi < 2 ^ 64) (hma : ma < 2 ^ 64) (hle : mi ≤ ma)
    (hsz : ((ma + 2 ^ 64 - mi) % 2 ^ 64 + 1) % 2 ^ 64 ≠ 0) :
    genrate_mapped_value payload mi ma =
      mi + random_value64 (payload.drop 1) % (ma - mi + 1) ∧
    mi ≤ genrate_mapped_value payload mi ma ∧
    genrate_mapped_value payload mi ma ≤ ma := by
  have hd : (ma + 2 ^ 64 - mi) % 2 ^ 64 = ma - mi := by omega
  have hs1 : ((ma + 2 ^ 64 - mi) % 2 ^ 64 + 1) % 2 ^ 64 = ma - mi + 1 := by
    rw [hd]
    omega
  have hmod : random_value64 (payload.drop 1) % (ma - mi + 1) ≤ ma - mi :=
    Nat.le_of_lt_succ (Nat.mod_lt _ (by omega))
  have heq : genrate_mapped_value payload mi ma =
      mi + random_value64 (payload.drop 1) % (ma - mi + 1) := by
    unfold genrate_mapped_value map_random_to_range
    rw [hs1]
    exact Nat.mod_eq_of_lt (by omega)
  refine ⟨heq, ?_, ?_⟩ <;> rw [heq] <;> omega

/-- Witness for C6 on a concrete payload and range. -/
theorem genrate_mapped_value_in_range_witness :
    genrate_mapped_value [0, 1, 0, 0, 0, 0, 0, 0, 37] 10 19 =
      10 + random_value64 [1, 0, 0, 0, 0, 0, 0, 37] % 10 ∧
    10 ≤ genrate_mapped_value [0, 1, 0, 0, 0, 0, 0, 0, 37] 10 19 ∧
    genrate_mapped_value [0, 1, 0, 0, 0, 0, 0, 0, 37] 10 19 ≤ 19 :=
  genrate_mapped_value_in_range [0, 1, 0, 0, 0, 0, 0, 0, 37] 10 19
    (by norm_num) (by norm_num) (by norm_num) (by norm_num)

/-! ## Tolerated transient transport errors -/

def EIO : Nat := 5

def EREMOTEIO : Nat := 121

/-- The nine bus transactions issued by the protocol engine, one per
`ioctl(fd, I2C_RDWR, ...)` call site. -/
inductive BusTransaction
  | sendCmdWrite
  | recvRespRead
  | wakeWrite
  | wakeRead
  | sleepWrite
  | shaResultRead
  | slotConfigRead
  | lockStatusRead
  | aesRead
  deriving DecidableEq, Repr

/-- Which transport `errno` values each call site tolerates (the
operation proceeds despite the failed transaction): sites guarded by
`errno != EIO && errno != EREMOTEIO` tolerate those two codes; the wake
response read, the sleep write and the SHA result read treat every
failure as fatal. -/
def toleratesTransportError : BusTransaction → Nat → Bool
  | .sendCmdWrite, e => e == EIO || e == EREMOTEIO
  | .recvRespRead, e => e == EIO || e == EREMOTEIO
  | .wakeWrite, e => e == EIO || e == EREMOTEIO
  | .wakeRead, _ => false
  | .sleepWrite, _ => false
  | .shaResultRead, _ => false
  | .slotConfigRead, e => e == EIO || e == EREMOTEIO
  | .lockStatusRead, e => e == EIO || e == EREMOTEIO
  | .aesRead, e => e == EIO || e == EREMOTEIO

/-- C8 counterexample: the wake response read does not tolerate `EIO` —
contradicting the claim that every transaction in wake/sleep/command
send/response read/hash read/cipher read tolerates exactly
`EIO`/`EREMOTEIO`.  The sleep write and the SHA result read likewise
treat the two transient codes as fatal. -/
theorem wake_read_eio_fatal :
    toleratesTransportError BusTransaction.wakeRead EIO = false ∧
    toleratesTransportError BusTransaction.sleepWrite EIO = false ∧
    toleratesTransportError BusTransaction.shaResultRead EREMOTEIO = false :=
  ⟨rfl, rfl, rfl⟩

/-- C8 (amended): the command-send write, the response-reader read, the
wake token write, the slot-config read, the lock-status read and the
cipher-response read tolerate exactly the two transient codes `EIO` and
`EREMOTEIO`; the wake response read, the sleep write and the SHA result
read treat every transport failure as fatal. -/
theorem tolerated_transport_errors (t : BusTransaction) (e : Nat) :
    toleratesTransportError t e = true ↔
      ((t = .sendCmdWrite ∨ t = .recvRespRead ∨ t = .wakeWrite ∨
        t = .slotConfigRead ∨ t = .lockStatusRead ∨ t = .aesRead) ∧
        (e = EIO ∨ e = EREMOTEIO)) := by
  cases t <;> simp [toleratesTransportError]

/-! ## Lock-status decode (`check_lock_status`) -/

/-- The four lock states `check_lock_status` distinguishes from the two
lock bytes. -/
inductive LockState
  | fullyLocked
  | unlocked
  | partiallyLocked
  | unknownState
  deriving DecidableEq, Repr

/-- The decode table at the end of `check_lock_status`, applied to
`lock_config = raw[1]` and `lock_value = raw[2]`. -/
def decode_lock (lock_config lock_value : Nat) : LockState :=
  if lock_config = 0x00 ∧ lock_value = 0x00 then .fullyLocked
  else if lock_config = 0x55 ∧ lock_value = 0x55 then .unlocked
  else if lock_config = 0x00 ∧ lock_value = 0x55 then .partiallyLocked
  else .unknownState

/-- The distinct outcomes of `check_lock_status` after a non-fatal
transport read, one per early return plus the decoded state. -/
inductive LockReport
  | badCount (count : Nat)
  | crcMismatch
  | shortPayload
  | decoded (s : LockState)
  deriving DecidableEq, Repr

/-- `check_lock_status` on the 7 raw bytes read from the bus: count-byte
range check, CRC validation, payload-length check, then the decode
table. -/
def check_lock_status (raw : List Nat) : LockReport :=
  if raw.getD 0 0 > 7 ∨ raw.getD 0 0 < 4 then .badCount (raw.getD 0 0)
  else if ¬ (validate_crc raw (raw.getD 0 0) = true) then .crcMismatch
  else if raw.getD 0 0 - 3 < 4 then .shortPayload
  else .decoded (decode_lock (raw.getD 1 0) (raw.getD 2 0))

/-- C9: the lock decode table — `(0x00,0x00)` fully locked,
`(0x55,0x55)` unlocked, `(0x00,0x55)` partially locked, every other pair
(such as `(0x12,0x34)`) the unknown state; on any well-formed lock
response frame the operation reports exactly the decoded state, a
constructor distinct from the integrity (CRC) and malformed-frame
outcomes. -/
theorem lock_decode_table :
    decode_lock 0x00 0x00 = .fullyLocked ∧
    decode_lock 0x55 0x55 = .unlocked ∧
    decode_lock 0x00 0x55 = .partiallyLocked ∧
    decode_lock 0x12 0x34 = .unknownState ∧
    (∀ a b, ¬(a = 0x00 ∧ b = 0x00) → ¬(a = 0x55 ∧ b = 0x55) →
      ¬(a = 0x00 ∧ b = 0x55) → decode_lock a b = .unknownState) ∧
    (∀ a b x y,
      check_lock_status ([7, a, b, x, y] ++ calc_crc16_ccitt [7, a, b, x, y]) =
        .decoded (decode_lock a b)) ∧
    (∀ s c, LockReport.decoded s ≠ .crcMismatch ∧
      LockReport.decoded s ≠ .badCount c) := by
  refine ⟨rfl, rfl, rfl, rfl, ?_, ?_, by simp⟩
  · intro a b h1 h2 h3
    unfold decode_lock
    rw [if_neg h1, if_neg h2, if_neg h3]
  · intro a b x y
    have hbody : ([7, a, b, x, y] : List Nat).length = 5 := rfl
    have hval := validate_crc_append [7, a, b, x, y] (by rw [hbody]; omega)
    rw [hbody] at hval
    have h0 : (([7, a, b, x, y] : List Nat) ++
        calc_crc16_ccitt [7, a, b, x, y]).getD 0 0 = 7 :=
      List.getD_append _ _ _ 0 (by rw [hbody]; omega)
    have h1 : (([7, a, b, x, y] : List Nat) ++
        calc_crc16_ccitt [7, a, b, x, y]).getD 1 0 = a :=
      List.getD_append _ _ _ 1 (by rw [hbody]; omega)
    have h2 : (([7, a, b, x, y] : List Nat) ++
        calc_crc16_ccitt [7, a, b, x, y]).getD 2 0 = b :=
      List.getD_append _ _ _ 2 (by rw [hbody]; omega)
    unfold check_lock_status
    rw [h0, h1, h2, if_neg (by omega)]
    rw [if_neg (by rw [show (7 : Nat) = 5 + 2 from rfl, hval]; simp)]
    rw [if_neg (by omega)]

/-- Witness for C9 at a concrete undecodable pair and a concrete
well-formed frame. -/
theorem lock_decode_table_witness :
    decode_lock 0x03 0x04 = .unknownState ∧
    check_lock_status ([7, 0x00, 0x55, 0xEE, 0xAA] ++
        calc_crc16_ccitt [7, 0x00, 0x55, 0xEE, 0xAA]) =
      .decoded (decode_lock 0x00 0x55) :=
  ⟨lock_decode_table.2.2.2.2.1 0x03 0x04 (by decide) (by decide) (by decide),
   lock_decode_table.2.2.2.2.2.1 0x00 0x55 0xEE 0xAA⟩

/-! ## Serial-number read (`read_atecc_serial_number`) -/

/-- `read_atecc_serial_number` modelled over an explicit transport
behaviour: `sendOk.getD i true` tells whether the `i`-th
`send_atecc_cmd` survives its transport write, and `r0 r1 r2` are the
wire bytes for the three response reads.  The result carries the success
flag, the caller's `serial_number` buffer after the call, and the local
`serial[9]` working buffer the source assembles and prints.  The source
never stores through the `serial_number` output parameter. -/
def read_atecc_serial_number (serial_number : Option (List Nat))
    (sendOk : List Bool) (r0 r1 r2 : List Nat) :
    Bool × Option (List Nat) × List Nat :=
  if serial_number = none then (false, serial_number, [])
  else if sendOk.getD 0 true = false then
    (false, serial_number, List.replicate 9 0)
  else
    match receive_atecc_response true 4 true r0 with
    | .error _ => (false, serial_number, List.replicate 9 0)
    | .ok s0 =>
      if sendOk.getD 1 true = false then
        (false, serial_number, s0.take 4 ++ List.replicate 5 0)
      else
        match receive_atecc_response true 4 true r1 with
        | .error _ => (false, serial_number, s0.take 4 ++ List.replicate 5 0)
        | .ok s1 =>
          if sendOk.getD 2 true = false then
            (false, serial_number, s0.take 4 ++ s1.take 4 ++ [0])
          else
            match receive_atecc_response true 4 true r2 with
            | .error _ => (false, serial_number, s0.take 4 ++ s1.take 4 ++ [0])
            | .ok s2 =>
              (true, serial_number,
                s0.take 4 ++ s1.take 4 ++ [(s2.take 4).getD 0 0])

/-- C10: the caller-supplied serial-number output buffer is returned
unchanged by every call — including successful ones, where the 9-byte
identifier is only assembled in the local buffer; a concrete successful
run exhibits this. -/
theorem serial_number_output_untouched :
    (∀ (serial_number : Option (List Nat)) (sendOk : List Bool)
      (r0 r1 r2 : List Nat),
      (read_atecc_serial_number serial_number sendOk r0 r1 r2).2.1 =
        serial_number) ∧
    read_atecc_serial_number (some (List.replicate 9 0)) []
        [7, 1, 2, 3, 4, 0, 0] [7, 5, 6, 7, 8, 0, 0] [7, 9, 10, 11, 12, 0, 0] =
      (true, some (List.replicate 9 0), [1, 2, 3, 4, 5, 6, 7, 8, 9]) := by
  constructor
  · intro serial_number sendOk r0 r1 r2
    unfold read_atecc_serial_number
    split
    · rfl
    · split
      · rfl
      · rcases receive_atecc_response true 4 true r0 with _ | s0
        · rfl
        · simp only []
          split
          · rfl
          · rcases receive_atecc_response true 4 true r1 with _ | s1
            · rfl
            · simp only []
              split
              · rfl
              · rcases receive_atecc_response true 4 true r2 with _ | s2 <;> rfl
  · rfl

end PiAtecc
